import Mathlib

/-!
Verification of the Running Analytics data pipeline (app.py): schema
validation, filtering, derived-field calculation and aggregation, embedded
shallowly over lists of records.  Calendar dates are modelled as whole-day
numbers (ℤ); numeric cell values are exact rationals (ℚ).
-/

namespace RunningDash

/-- A row of the coerced table: `date` as a day number, `person`, the
miles-run distance, and the optional coerced `minutes` value (`none` models a
missing/unparseable duration, which pandas coerces to NaN). -/
structure Record where
  date : ℤ
  person : String
  miles : ℚ
  minutes : Option ℚ
deriving DecidableEq, Repr

/-- A record extended with the derived fields `pace_min_per_mile` and
`calories` (app.py lines 109-114).  `pace = none` models a non-finite IEEE
result (±inf or NaN). -/
structure DerivedRecord where
  date : ℤ
  person : String
  miles : ℚ
  minutes : Option ℚ
  pace : Option ℚ
  calories : ℚ
deriving DecidableEq, Repr

/-- Filter Engine (app.py lines 98-103): keep rows with
`start_date ≤ date ≤ end_date` and `person ∈ selected_persons`. -/
def filterTable (rows : List Record) (startD endD : ℤ) (selected : List String) :
    List Record :=
  rows.filter fun r =>
    decide (startD ≤ r.date) && decide (r.date ≤ endD) && selected.contains r.person

/-- Elementwise float division as pandas performs it: IEEE division never
raises; a zero divisor yields a non-finite value (±inf, or NaN for 0/0),
modelled as `none`. -/
def pdDiv (a b : ℚ) : Option ℚ :=
  if b = 0 then none else some (a / b)

/-- Derived-field calculation for one row (app.py lines 109-114).  With a
`minutes` column present (`hasTime = true`): `pace = minutes / miles`
(NaN minutes propagate to NaN pace).  Otherwise `pace = est_pace` and
`minutes` is back-filled as `miles * est_pace`.  In both cases
`calories = miles * cals_per_mile`. -/
def deriveRecord (hasTime : Bool) (estPace calsPerMile : ℚ) (r : Record) :
    DerivedRecord :=
  if hasTime then
    { date := r.date, person := r.person, miles := r.miles, minutes := r.minutes,
      pace := match r.minutes with
        | none => none
        | some m => pdDiv m r.miles,
      calories := r.miles * calsPerMile }
  else
    { date := r.date, person := r.person, miles := r.miles,
      minutes := some (r.miles * estPace),
      pace := some estPace,
      calories := r.miles * calsPerMile }

/-- Derived-field calculation over the whole filtered table. -/
def derive (hasTime : Bool) (estPace calsPerMile : ℚ) (rows : List Record) :
    List DerivedRecord :=
  rows.map (deriveRecord hasTime estPace calsPerMile)

/-- The distinct validation error messages produced by validate_csv
(app.py lines 16-53).  Each constructor models one of the f-string messages;
`missingCols` carries the absent column names and `milesNonNumeric` the count
interpolated into the message text. -/
inductive VError where
  | missingCols (cols : List String)
  | emptyTable
  | badDates
  | nullPerson
  | milesNonNumeric (count : ℕ)
  | milesNegative
deriving DecidableEq, Repr

/-- The raw uploaded table as the validator sees it.  A column is `none` when
absent from the header.  `dateCol` records per cell whether it parses as a
date; `personCol` records per cell whether it is null; `milesCol` holds the
result of numeric coercion per cell (`none` = non-numeric, as
`pd.to_numeric(errors=coerce)` yields NaN). -/
structure RawTable where
  dateCol : Option (List Bool)
  personCol : Option (List Bool)
  milesCol : Option (List (Option ℚ))
  nRows : ℕ
deriving DecidableEq, Repr

/-- The required columns absent from the header, in the order the source
iterates them (app.py line 22). -/
def missingColumns (t : RawTable) : List String :=
  (if t.dateCol.isNone then ["date"] else []) ++
    (if t.personCol.isNone then ["person"] else []) ++
    (if t.milesCol.isNone then ["miles run"] else [])

/-- Date check (app.py lines 32-36): with a date column present, one error
when any cell fails to parse (`pd.to_datetime` raises on the whole column). -/
def dateErrors (t : RawTable) : List VError :=
  match t.dateCol with
  | some flags => if flags.all (fun b => b) then [] else [VError.badDates]
  | none => []

/-- Person check (app.py lines 38-40): one error when any cell is null. -/
def personErrors (t : RawTable) : List VError :=
  match t.personCol with
  | some nulls => if nulls.any (fun b => b) then [VError.nullPerson] else []
  | none => []

/-- Is this coerced miles cell negative? (NaN compares false in pandas.) -/
def negCell (c : Option ℚ) : Bool :=
  match c with
  | some q => decide (q < 0)
  | none => false

/-- Distance check (app.py lines 42-51): count the cells numeric coercion
turned into NaN and report that count; only when none did, report a sign
error if any value is negative. -/
def milesErrors (t : RawTable) : List VError :=
  match t.milesCol with
  | some cells =>
      let n := (cells.filter fun c => c.isNone).length
      if 0 < n then [VError.milesNonNumeric n]
      else if cells.any negCell then [VError.milesNegative]
      else []
  | none => []

/-- Schema Validator (app.py lines 16-53): collect the missing-column error,
then short-circuit after the emptiness error on a zero-row table, else append
the date, person and distance errors in source order. -/
def validate_csv (t : RawTable) : List VError :=
  let e1 : List VError :=
    if (missingColumns t).isEmpty then [] else [VError.missingCols (missingColumns t)]
  if t.nRows = 0 then e1 ++ [VError.emptyTable]
  else e1 ++ (dateErrors t ++ personErrors t ++ milesErrors t)

/-- Sum of the miles column of a group. -/
def sumMiles (g : List DerivedRecord) : ℚ :=
  (g.map fun r => r.miles).sum

/-- Maximum of a list of rationals (0 for an empty list, which the pipeline
never reaches: groups are nonempty). -/
def listMaxQ : List ℚ → ℚ
  | [] => 0
  | x :: xs => xs.foldl max x

/-- Minimum of a list of rationals (0 for an empty list). -/
def listMinQ : List ℚ → ℚ
  | [] => 0
  | x :: xs => xs.foldl min x

/-- Mean distance of a group, as pandas mean = sum / count. -/
def meanMiles (g : List DerivedRecord) : ℚ :=
  sumMiles g / (g.length : ℚ)

/-- Population variance of the distances of a group (pandas
`std(ddof=0)` squared): mean squared deviation with divisor N. -/
def popVar (g : List DerivedRecord) : ℚ :=
  ((g.map fun r => (r.miles - meanMiles g) ^ 2).sum) / (g.length : ℚ)

/-- The rows of a table belonging to one person (a groupby group). -/
def groupOf (rows : List DerivedRecord) (p : String) : List DerivedRecord :=
  rows.filter fun r => r.person == p

/-- The distinct person keys of a table in ascending order, as pandas
groupby sorts its keys. -/
def personsOf (rows : List DerivedRecord) : List String :=
  List.insertionSort (· ≤ ·) ((rows.map fun r => r.person).dedup)

/-- Floor of a rational, via floor division of numerator by denominator. -/
def qfloor (q : ℚ) : ℤ :=
  q.num.fdiv q.den

/-- Round to 2 decimal places, ties to even, the semantics of pandas
`DataFrame.round(2)` (numpy half-even rounding). -/
def round2 (q : ℚ) : ℚ :=
  let s : ℚ := q * 100
  let f : ℤ := qfloor s
  let r : ℚ := s - f
  let n : ℤ :=
    if r < 1 / 2 then f
    else if 1 / 2 < r then f + 1
    else if f % 2 = 0 then f else f + 1
  (n : ℚ) / 100

/-- One row of the per-person statistics table (app.py lines 226-233).  The
columns, in source order: Total Miles, Average Miles, Max Miles, Min Miles,
Run Count, Calories (est).  The source aggregates the miles-run column for
every one of these, so the Calories (est) column is a second sum of miles. -/
structure PersonStat where
  person : String
  totalMiles : ℚ
  avgMiles : ℚ
  maxMiles : ℚ
  minMiles : ℚ
  runCount : ℕ
  caloriesEst : ℚ
deriving DecidableEq, Repr

/-- The aggregate row for one person, each numeric column rounded to 2
decimals as by `.round(2)`. -/
def statOf (rows : List DerivedRecord) (p : String) : PersonStat :=
  let g := groupOf rows p
  let ms := g.map fun r => r.miles
  { person := p,
    totalMiles := round2 ms.sum,
    avgMiles := round2 (ms.sum / (g.length : ℚ)),
    maxMiles := round2 (listMaxQ ms),
    minMiles := round2 (listMinQ ms),
    runCount := g.length,
    caloriesEst := round2 ms.sum }

/-- Insert a stat row into a list sorted descending by total miles. -/
def insertByTotal (s : PersonStat) : List PersonStat → List PersonStat
  | [] => [s]
  | t :: ts => if t.totalMiles ≤ s.totalMiles then s :: t :: ts else t :: insertByTotal s ts

/-- Sort stat rows descending by total miles
(`sort_values(ascending=False)`, app.py line 234). -/
def sortByTotalDesc : List PersonStat → List PersonStat
  | [] => []
  | s :: ss => insertByTotal s (sortByTotalDesc ss)

/-- Per-person statistics table (app.py lines 226-235): one aggregate row per
distinct person, sorted descending by total miles. -/
def person_stats (rows : List DerivedRecord) : List PersonStat :=
  sortByTotalDesc ((personsOf rows).map (statOf rows))

/-- Maximum date of the table (`df.date.max()`; dates are whole days so
`normalize()` is the identity). -/
def maxDate (rows : List DerivedRecord) : ℤ :=
  match rows with
  | [] => 0
  | r :: rs => rs.foldl (fun acc x => max acc x.date) r.date

/-- Weekly mileage (app.py lines 153-156): sum of miles over the inclusive
trailing 7-day window ending at the maximum date. -/
def week_miles (rows : List DerivedRecord) : ℚ :=
  ((rows.filter fun r =>
      decide (maxDate rows - 6 ≤ r.date) && decide (r.date ≤ maxDate rows)).map
    fun r => r.miles).sum

/-- Weekly goal progress percentage (app.py line 157). -/
def goal_pct (goal : ℚ) (rows : List DerivedRecord) : ℚ :=
  if 0 < goal then week_miles rows / goal * 100 else 0

/-- Does distance d exceed mean + 2·std?  Encoded over ℚ without square
roots: d > m + 2·√v iff d > m and (d−m)² > 4v. -/
def gtUpper (d m v : ℚ) : Bool :=
  decide (m < d) && decide (4 * v < (d - m) ^ 2)

/-- Is distance d below mean − 2·std (the unclamped lower bound)?
d < m − 2·√v iff d < m and (m−d)² > 4v. -/
def ltLowerRaw (d m v : ℚ) : Bool :=
  decide (d < m) && decide (4 * v < (m - d) ^ 2)

/-- Is the lower bound max(m − 2·std, 0) clamped to 0?
m − 2·√v ≤ 0 iff m ≤ 0 or m² ≤ 4v. -/
def lowerClampedToZero (m v : ℚ) : Bool :=
  decide (m ≤ 0) || decide (m ^ 2 ≤ 4 * v)

/-- The outlier predicate of detect_outliers (app.py lines 242-244):
distance strictly above mean + 2·std or strictly below max(mean − 2·std, 0). -/
def isOutlier (d m v : ℚ) : Bool :=
  gtUpper d m v ||
    (if lowerClampedToZero m v then decide (d < 0) else ltLowerRaw d m v)

/-- detect_outliers on one person group (app.py lines 239-244): keep the rows
whose distance violates the ±2σ bounds of the group. -/
def detect_outliers (g : List DerivedRecord) : List DerivedRecord :=
  g.filter fun r => isOutlier r.miles (meanMiles g) (popVar g)

/-- Outlier table (app.py line 245): groupby person and concatenate each
group's detected outliers (`group_keys=False`). -/
def outliers (rows : List DerivedRecord) : List DerivedRecord :=
  (personsOf rows).flatMap fun p => detect_outliers (groupOf rows p)

/-- Single-record input exhibiting the Calories (est) bug of the per-person
statistics: one run of 5 miles at 100 calories per mile (fallback pace 10). -/
def bugRows : List DerivedRecord :=
  derive false 10 100 [{ date := 0, person := "A", miles := 5, minutes := none }]

/-- The outlier boundary scenario: person Alice with distances
[3, 3, 3, 3, 20]. -/
def aliceRows : List DerivedRecord :=
  derive false 10 100
    [{ date := 1, person := "Alice", miles := 3, minutes := none },
     { date := 2, person := "Alice", miles := 3, minutes := none },
     { date := 3, person := "Alice", miles := 3, minutes := none },
     { date := 4, person := "Alice", miles := 3, minutes := none },
     { date := 5, person := "Alice", miles := 20, minutes := none }]

/-- The derived record of Alice's 20-mile run in `aliceRows`. -/
def aliceRun20 : DerivedRecord :=
  { date := 5, person := "Alice", miles := 20, minutes := some 200,
    pace := some 10, calories := 2000 }

/-- A lone run used to witness the single-run boundary case of outlier
detection. -/
def soloRun : DerivedRecord :=
  { date := 0, person := "A", miles := 5, minutes := some 50,
    pace := some 10, calories := 500 }

/-- The weekly-window scenario: one person, records on seven consecutive days
with distances 1..7. -/
def demoWeekRows : List DerivedRecord :=
  derive false 10 100
    [{ date := 1, person := "A", miles := 1, minutes := none },
     { date := 2, person := "A", miles := 2, minutes := none },
     { date := 3, person := "A", miles := 3, minutes := none },
     { date := 4, person := "A", miles := 4, minutes := none },
     { date := 5, person := "A", miles := 5, minutes := none },
     { date := 6, person := "A", miles := 6, minutes := none },
     { date := 7, person := "A", miles := 7, minutes := none }]

/-- A concrete two-row table whose miles column holds one non-numeric cell
and the numeric value 3. -/
def milesDemoTable : RawTable :=
  { dateCol := some [true, true], personCol := some [false, false],
    milesCol := some [none, some 3], nRows := 2 }

/-- A zero-row table missing all three required columns. -/
def emptyMissingTable : RawTable :=
  { dateCol := none, personCol := none, milesCol := none, nRows := 0 }

/-- C6: the Filter Engine keeps exactly the records whose date d satisfies
start ≤ d ≤ end (inclusive on both ends) and whose person is a member of the
selected set. -/
theorem filter_spec (rows : List Record) (s e : ℤ) (sel : List String) (r : Record) :
    r ∈ filterTable rows s e sel ↔
      r ∈ rows ∧ (s ≤ r.date ∧ r.date ≤ e ∧ r.person ∈ sel) := by
  simp [filterTable, List.mem_filter, List.contains, List.elem_iff, and_assoc]

/-- C9: the filter is idempotent — filtering an already-filtered table with
the same date range and person set returns an identical table. -/
theorem filter_idempotent (rows : List Record) (s e : ℤ) (sel : List String) :
    filterTable (filterTable rows s e sel) s e sel = filterTable rows s e sel := by
  simp [filterTable, List.filter_filter]

/-- C5: without a minutes column, every derived record has
pace = fallback_pace and back-filled duration = distance * fallback_pace;
with or without that column, calories = distance * calories_per_mile; in
particular, fallback pace 10 on a single 5-mile record derives duration 50
and pace 10. -/
theorem derive_fallback_spec (e c : ℚ) (b : Bool) (rows : List Record) :
    (∀ d ∈ derive false e c rows, d.pace = some e ∧ d.minutes = some (d.miles * e)) ∧
    (∀ d ∈ derive b e c rows, d.calories = d.miles * c) ∧
    derive false 10 100 [{ date := 0, person := "A", miles := 5, minutes := none }] =
      [{ date := 0, person := "A", miles := 5, minutes := some 50,
         pace := some 10, calories := 500 }] := by
  refine ⟨?_, ?_, ?_⟩
  · intro d hd
    rw [derive, List.mem_map] at hd
    obtain ⟨r, _, rfl⟩ := hd
    simp [deriveRecord]
  · intro d hd
    rw [derive, List.mem_map] at hd
    obtain ⟨r, _, rfl⟩ := hd
    cases b <;> simp [deriveRecord]
  · norm_num [derive, deriveRecord]

/-- Witness for C5: the single derived record of the fallback scenario has
pace 10 and duration 5 * 10 = 50 minutes. -/
theorem derive_fallback_spec_witness :
    soloRun.pace = some 10 ∧ soloRun.minutes = some (soloRun.miles * 10) := by
  have hmem : soloRun ∈ derive false 10 100
      [{ date := 0, person := "A", miles := 5, minutes := none }] := by
    norm_num [derive, deriveRecord, soloRun]
  exact (derive_fallback_spec 10 100 false _).1 soloRun hmem

/-- C8: with a duration column present, the derived-field computation is
total — it yields one output row per input row even when a record has
distance 0, and that record's pace is the undefined/non-finite value
(modelled as none) rather than an error. -/
theorem derive_zero_distance_safe (e c : ℚ) (rows : List Record) :
    (derive true e c rows).length = rows.length ∧
    ∀ r ∈ rows, r.miles = 0 →
      deriveRecord true e c r ∈ derive true e c rows ∧
        (deriveRecord true e c r).pace = none := by
  constructor
  · simp [derive]
  · intro r hr h0
    refine ⟨List.mem_map_of_mem _ hr, ?_⟩
    cases hm : r.minutes <;> simp [deriveRecord, pdDiv, h0, hm]

/-- Witness for C8: a zero-distance record with 30 recorded minutes is
processed without error and gets an undefined pace. -/
theorem derive_zero_distance_safe_witness :
    (derive true 10 100 [{ date := 0, person := "A", miles := 0, minutes := some 30 }]).length = 1 ∧
    (deriveRecord true 10 100 { date := 0, person := "A", miles := 0, minutes := some 30 }).pace = none := by
  have h := derive_zero_distance_safe 10 100
    [{ date := 0, person := "A", miles := 0, minutes := some 30 }]
  exact ⟨h.1, (h.2 _ (List.mem_singleton.mpr rfl) rfl).2⟩

theorem mem_dateErrors {t : RawTable} {v : VError} (h : v ∈ dateErrors t) :
    v = VError.badDates := by
  unfold dateErrors at h
  rcases hd : t.dateCol with _ | flags <;> rw [hd] at h
  · simp at h
  · cases hf : flags.all (fun b => b) <;> simp [hf] at h
    exact h

theorem mem_personErrors {t : RawTable} {v : VError} (h : v ∈ personErrors t) :
    v = VError.nullPerson := by
  unfold personErrors at h
  rcases hp : t.personCol with _ | nulls <;> rw [hp] at h
  · simp at h
  · cases hn : nulls.any (fun b => b) <;> simp [hn] at h
    exact h

theorem validate_csv_of_ne_zero {t : RawTable} (hne : t.nRows ≠ 0) :
    validate_csv t =
      (if (missingColumns t).isEmpty then [] else [VError.missingCols (missingColumns t)]) ++
        (dateErrors t ++ personErrors t ++ milesErrors t) := by
  simp [validate_csv, hne]

theorem mem_headErrors {t : RawTable} {v : VError}
    (h : v ∈ (if (missingColumns t).isEmpty then ([] : List VError)
      else [VError.missingCols (missingColumns t)])) :
    v = VError.missingCols (missingColumns t) := by
  by_cases hm : (missingColumns t).isEmpty = true <;> simp [hm] at h
  exact h

/-- C7: for every non-empty table with a miles-run column, N ≥ 1 cells that
fail numeric coercion produce the parse error carrying exactly that count N;
if every cell is numeric and some value is negative, the sign error is
reported; and the two errors never both appear in one run. -/
theorem validator_miles_spec (t : RawTable) (l : List (Option ℚ))
    (hm : t.milesCol = some l) (hne : t.nRows ≠ 0) :
    (0 < (l.filter fun c => c.isNone).length →
      VError.milesNonNumeric (l.filter fun c => c.isNone).length ∈ validate_csv t) ∧
    ((∀ c ∈ l, c.isSome) → (∃ q, some q ∈ l ∧ q < 0) →
      VError.milesNegative ∈ validate_csv t) ∧
    ∀ n, ¬(VError.milesNonNumeric n ∈ validate_csv t ∧
        VError.milesNegative ∈ validate_csv t) := by
  rw [validate_csv_of_ne_zero hne]
  refine ⟨?_, ?_, ?_⟩
  · intro hn
    have hmil : milesErrors t =
        [VError.milesNonNumeric (l.filter fun c => c.isNone).length] := by
      simp [milesErrors, hm, hn]
    simp [hmil]
  · intro hall hneg
    have h0 : (l.filter fun c => c.isNone).length = 0 := by
      rw [List.length_eq_zero, List.filter_eq_nil_iff]
      intro c hc
      have hs := hall c hc
      cases c
      · simp at hs
      · simp
    have hany : l.any negCell = true := by
      obtain ⟨q, hq, hqneg⟩ := hneg
      rw [List.any_eq_true]
      exact ⟨some q, hq, by simp [negCell, hqneg]⟩
    have hmil : milesErrors t = [VError.milesNegative] := by
      simp [milesErrors, hm, h0, hany]
    simp [hmil]
  · rintro n ⟨h1, h2⟩
    simp only [List.mem_append] at h1 h2
    rcases h1 with h1 | ((h1 | h1) | h1)
    · exact absurd (mem_headErrors h1) (by simp)
    · exact absurd (mem_dateErrors h1) (by simp)
    · exact absurd (mem_personErrors h1) (by simp)
    · rcases h2 with h2 | ((h2 | h2) | h2)
      · exact absurd (mem_headErrors h2) (by simp)
      · exact absurd (mem_dateErrors h2) (by simp)
      · exact absurd (mem_personErrors h2) (by simp)
      · have hml : milesErrors t =
            (if 0 < (l.filter fun c => c.isNone).length
              then [VError.milesNonNumeric (l.filter fun c => c.isNone).length]
              else if l.any negCell = true then [VError.milesNegative] else []) := by
          simp [milesErrors, hm]
        rw [hml] at h1 h2
        by_cases hc : 0 < (l.filter fun c => c.isNone).length
        · rw [if_pos hc] at h2
          simp at h2
        · rw [if_neg hc] at h1
          by_cases ha : l.any negCell = true

          · rw [if_pos ha] at h1
            simp at h1
          · rw [if_neg ha] at h1
            simp at h1

/-- Witness for C7: the demo table with one non-numeric miles cell yields the
parse error with count 1. -/
theorem validator_miles_spec_witness :
    VError.milesNonNumeric 1 ∈ validate_csv milesDemoTable := by
  have h := (validator_miles_spec milesDemoTable [none, some 3] rfl (by decide)).1
  simpa using h (by simp)

/-- C10: on a zero-row table whose header also lacks required columns, the
validator reports both the missing-column error (naming the absent columns)
and the emptiness error — the emptiness short-circuit cuts off only the later
date/person/distance checks. -/
theorem validator_empty_missing_spec (t : RawTable) (h0 : t.nRows = 0)
    (hm : missingColumns t ≠ []) :
    validate_csv t = [VError.missingCols (missingColumns t), VError.emptyTable] := by
  have hne : (missingColumns t).isEmpty = false := by
    simpa [List.isEmpty_iff] using hm
  simp [validate_csv, h0, hne]

/-- Witness for C10: the empty, column-less table reports the three missing
columns and the emptiness error together. -/
theorem validator_empty_missing_spec_witness :
    validate_csv emptyMissingTable =
      [VError.missingCols ["date", "person", "miles run"], VError.emptyTable] := by
  rw [validator_empty_missing_spec emptyMissingTable rfl (by decide)]
  rfl

theorem le_foldl_max_date (l : List DerivedRecord) (a : ℤ) :
    a ≤ l.foldl (fun acc y => max acc y.date) a := by
  induction l generalizing a with
  | nil => exact le_refl a
  | cons b bs ih =>
    exact le_trans (le_max_left a b.date) (ih (max a b.date))

theorem mem_le_foldl_max_date (l : List DerivedRecord) (a : ℤ) (r : DerivedRecord)
    (hr : r ∈ l) : r.date ≤ l.foldl (fun acc y => max acc y.date) a := by
  induction l generalizing a with
  | nil => cases hr
  | cons b bs ih =>
    rcases List.mem_cons.mp hr with rfl | hr2
    · exact le_trans (le_max_right a r.date) (le_foldl_max_date bs _)
    · exact ih (max a b.date) hr2

theorem foldl_max_date_attained (l : List DerivedRecord) (a : ℤ) :
    l.foldl (fun acc y => max acc y.date) a = a ∨
      ∃ r ∈ l, l.foldl (fun acc y => max acc y.date) a = r.date := by
  induction l generalizing a with
  | nil => exact Or.inl rfl
  | cons b bs ih =>
    rcases ih (max a b.date) with h | ⟨r, hr, h⟩
    · rcases le_total a b.date with hab | hab
      · right
        exact ⟨b, List.mem_cons_self b bs, by rw [List.foldl_cons, h, max_eq_right hab]⟩
      · left
        rw [List.foldl_cons, h, max_eq_left hab]
    · right
      exact ⟨r, List.mem_cons_of_mem b hr, h⟩

theorem maxDate_is_max (rows : List DerivedRecord) (h : rows ≠ []) :
    (∀ r ∈ rows, r.date ≤ maxDate rows) ∧ ∃ r ∈ rows, maxDate rows = r.date := by
  rcases rows with _ | ⟨b, bs⟩
  · exact absurd rfl h
  constructor
  · intro r hr
    rcases List.mem_cons.mp hr with rfl | hr2
    · exact le_foldl_max_date bs r.date
    · exact mem_le_foldl_max_date bs b.date r hr2
  · rcases foldl_max_date_attained bs b.date with h2 | ⟨r, hr, h2⟩
    · exact ⟨b, List.mem_cons_self b bs, h2⟩
    · exact ⟨r, List.mem_cons_of_mem b hr, h2⟩

/-- C4: on a non-empty filtered table the weekly sum covers exactly the
records in the inclusive trailing 7-day window ending at the maximum date of
the table, and progress = weekly_sum / goal * 100 when goal > 0, else 0; in
the 7-day scenario with distances 1..7 the weekly sum is 28 and progress at
goal 20 is 140%. -/
theorem week_goal_spec (goal : ℚ) (rows : List DerivedRecord) (h : rows ≠ []) :
    (∀ r ∈ rows, r.date ≤ maxDate rows) ∧
    (∃ r ∈ rows, maxDate rows = r.date) ∧
    week_miles rows =
      ((rows.filter fun r =>
          decide (maxDate rows - 6 ≤ r.date ∧ r.date ≤ maxDate rows)).map
        fun r => r.miles).sum ∧
    (0 < goal → goal_pct goal rows = week_miles rows / goal * 100) ∧
    (goal ≤ 0 → goal_pct goal rows = 0) ∧
    week_miles demoWeekRows = 28 ∧ goal_pct 20 demoWeekRows = 140 := by
  obtain ⟨hmax, hmem⟩ := maxDate_is_max rows h
  refine ⟨hmax, hmem, ?_, ?_, ?_, ?_, ?_⟩
  · simp [week_miles, Bool.decide_and]
  · intro hg
    simp [goal_pct, hg]
  · intro hg
    have : ¬0 < goal := not_lt.mpr hg
    simp [goal_pct, this]
  · norm_num [week_miles, demoWeekRows, derive, deriveRecord, maxDate, List.foldl]
  · norm_num [goal_pct, week_miles, demoWeekRows, derive, deriveRecord, maxDate, List.foldl]

/-- Witness for C4: the weekly-window scenario instantiated — weekly sum 28
and progress 140% at goal 20. -/
theorem week_goal_spec_witness :
    week_miles demoWeekRows = 28 ∧ goal_pct 20 demoWeekRows = 140 := by
  have h := week_goal_spec 20 demoWeekRows (by simp [demoWeekRows, derive])
  exact ⟨h.2.2.2.2.2.1, h.2.2.2.2.2.2⟩

/-- C1 (code bug): for the single-record input of 5 miles at 100 calories
per mile, the per-person statistics row carries 5 — a second copy of the
total miles — in its Calories (est) column, while the sum of the derived
calories values is 500: the aggregation reuses the miles-run column under
the calories label. -/
theorem person_stats_calories_mismatch :
    person_stats bugRows =
      [{ person := "A", totalMiles := 5, avgMiles := 5, maxMiles := 5,
         minMiles := 5, runCount := 1, caloriesEst := 5 }] ∧
    (bugRows.map fun r => r.calories).sum = 500 := by
  constructor
  · norm_num [person_stats, personsOf, bugRows, derive, deriveRecord, sortByTotalDesc,
      insertByTotal, statOf, groupOf, round2, qfloor, listMaxQ, listMinQ, List.insertionSort]
  · norm_num [bugRows, derive, deriveRecord]

theorem sqrt_four_mul (v : ℝ) (hv : 0 ≤ v) :
    Real.sqrt (4 * v) = 2 * Real.sqrt v := by
  rw [show (4 : ℝ) * v = 2 ^ 2 * v by norm_num, Real.sqrt_mul (by positivity) v,
    Real.sqrt_sq (by norm_num : (0 : ℝ) ≤ 2)]

theorem add_two_sqrt_lt_iff (m v d : ℝ) (hv : 0 ≤ v) :
    m + 2 * Real.sqrt v < d ↔ m < d ∧ 4 * v < (d - m) ^ 2 := by
  constructor
  · intro h
    have hs : 0 ≤ Real.sqrt v := Real.sqrt_nonneg v
    have h1 : m < d := by linarith
    have h2 : 2 * Real.sqrt v < d - m := by linarith
    have h3 : (2 * Real.sqrt v) ^ 2 < (d - m) ^ 2 :=
      pow_lt_pow_left h2 (by positivity) (by norm_num)
    have h4 : (2 * Real.sqrt v) ^ 2 = 4 * v := by
      rw [mul_pow, Real.sq_sqrt hv]
      ring
    exact ⟨h1, by linarith⟩
  · rintro ⟨h1, h2⟩
    have h5 : Real.sqrt (4 * v) < d - m :=
      (Real.sqrt_lt' (by linarith)).mpr h2
    have h6 := sqrt_four_mul v hv
    linarith [h6 ▸ h5]

theorem lt_sub_two_sqrt_iff (m v d : ℝ) (hv : 0 ≤ v) :
    d < m - 2 * Real.sqrt v ↔ d < m ∧ 4 * v < (m - d) ^ 2 := by
  have h := add_two_sqrt_lt_iff (-m) v (-d) hv
  constructor
  · intro hlt
    have := h.mp (by linarith)
    exact ⟨by linarith [this.1], by
      have h2 := this.2
      have : (-d - -m) ^ 2 = (m - d) ^ 2 := by ring
      linarith [this ▸ h2]⟩
  · rintro ⟨h1, h2⟩
    have := h.mpr ⟨by linarith, by
      have heq : (-d - -m) ^ 2 = (m - d) ^ 2 := by ring
      linarith [heq ▸ h2]⟩
    linarith

theorem sub_two_sqrt_nonpos_iff (m v : ℝ) (hv : 0 ≤ v) :
    m - 2 * Real.sqrt v ≤ 0 ↔ m ≤ 0 ∨ m ^ 2 ≤ 4 * v := by
  constructor
  · intro h
    by_cases hm : m ≤ 0
    · exact Or.inl hm
    · right
      have hm2 : 0 < m := lt_of_not_le hm
      have h1 : m ≤ 2 * Real.sqrt v := by linarith
      have h2 : m ^ 2 ≤ (2 * Real.sqrt v) ^ 2 :=
        pow_le_pow_left (le_of_lt hm2) h1 2
      have h3 : (2 * Real.sqrt v) ^ 2 = 4 * v := by
        rw [mul_pow, Real.sq_sqrt hv]
        ring
      linarith
  · intro h
    rcases h with hm | hsq
    · have := Real.sqrt_nonneg v
      linarith
    · by_cases hm : m ≤ 0
      · have := Real.sqrt_nonneg v
        linarith
      · have hm2 : 0 < m := lt_of_not_le hm
        have h1 : m ≤ Real.sqrt (4 * v) := (Real.le_sqrt' hm2).mpr hsq
        have h2 := sqrt_four_mul v hv
        linarith [h2 ▸ h1]

theorem popVar_nonneg (g : List DerivedRecord) : 0 ≤ popVar g := by
  unfold popVar
  apply div_nonneg
  · apply List.sum_nonneg
    intro x hx
    rw [List.mem_map] at hx
    obtain ⟨r, _, rfl⟩ := hx
    positivity
  · positivity

theorem isOutlier_iff (d m v : ℚ) (hv : 0 ≤ v) :
    isOutlier d m v = true ↔
      ((m : ℝ) + 2 * Real.sqrt ((v : ℚ) : ℝ) < (d : ℝ) ∨
        (d : ℝ) < max ((m : ℝ) - 2 * Real.sqrt ((v : ℚ) : ℝ)) 0) := by
  have hvR : (0 : ℝ) ≤ ((v : ℚ) : ℝ) := by exact_mod_cast hv
  have hup : gtUpper d m v = true ↔ (m : ℝ) + 2 * Real.sqrt ((v : ℚ) : ℝ) < (d : ℝ) := by
    rw [add_two_sqrt_lt_iff _ _ _ hvR]
    simp only [gtUpper, Bool.and_eq_true, decide_eq_true_eq]
    constructor
    · rintro ⟨h1, h2⟩
      exact ⟨by exact_mod_cast h1, by
        have : ((4 * v : ℚ) : ℝ) < (((d - m) ^ 2 : ℚ) : ℝ) := by exact_mod_cast h2
        push_cast at this
        linarith⟩
    · rintro ⟨h1, h2⟩
      refine ⟨by exact_mod_cast h1, ?_⟩
      have : ((4 * v : ℚ) : ℝ) < (((d - m) ^ 2 : ℚ) : ℝ) := by push_cast; linarith
      exact_mod_cast this
  by_cases hcl : lowerClampedToZero m v = true
  · have hclP : (m : ℝ) ≤ 0 ∨ ((m : ℝ)) ^ 2 ≤ 4 * ((v : ℚ) : ℝ) := by
      simp only [lowerClampedToZero, Bool.or_eq_true, decide_eq_true_eq] at hcl
      rcases hcl with h | h
      · exact Or.inl (by exact_mod_cast h)
      · right
        have : ((m ^ 2 : ℚ) : ℝ) ≤ ((4 * v : ℚ) : ℝ) := by exact_mod_cast h
        push_cast at this
        linarith
    have hmax : max ((m : ℝ) - 2 * Real.sqrt ((v : ℚ) : ℝ)) 0 = 0 :=
      max_eq_right ((sub_two_sqrt_nonpos_iff _ _ hvR).mpr hclP)
    rw [hmax]
    simp only [isOutlier, hcl, if_true, Bool.or_eq_true, decide_eq_true_eq, hup]
    constructor
    · rintro (h | h)
      · exact Or.inl h
      · exact Or.inr (by exact_mod_cast h)
    · rintro (h | h)
      · exact Or.inl h
      · exact Or.inr (by exact_mod_cast h)
  · have hclP : ¬((m : ℝ) ≤ 0 ∨ ((m : ℝ)) ^ 2 ≤ 4 * ((v : ℚ) : ℝ)) := by
      simp only [lowerClampedToZero, Bool.or_eq_true, decide_eq_true_eq] at hcl
      push_neg at hcl ⊢
      obtain ⟨h1, h2⟩ := hcl
      refine ⟨by exact_mod_cast h1, ?_⟩
      have : ((4 * v : ℚ) : ℝ) < ((m ^ 2 : ℚ) : ℝ) := by exact_mod_cast h2
      push_cast at this
      linarith
    have hmax : max ((m : ℝ) - 2 * Real.sqrt ((v : ℚ) : ℝ)) 0 =
        (m : ℝ) - 2 * Real.sqrt ((v : ℚ) : ℝ) := by
      apply max_eq_left
      by_contra hneg
      exact hclP ((sub_two_sqrt_nonpos_iff _ _ hvR).mp (by linarith [lt_of_not_le hneg]))
    rw [hmax]
    have hlo : ltLowerRaw d m v = true ↔
        (d : ℝ) < (m : ℝ) - 2 * Real.sqrt ((v : ℚ) : ℝ) := by
      rw [lt_sub_two_sqrt_iff _ _ _ hvR]
      simp only [ltLowerRaw, Bool.and_eq_true, decide_eq_true_eq]
      constructor
      · rintro ⟨h1, h2⟩
        exact ⟨by exact_mod_cast h1, by
          have : ((4 * v : ℚ) : ℝ) < (((m - d) ^ 2 : ℚ) : ℝ) := by exact_mod_cast h2
          push_cast at this
          linarith⟩
      · rintro ⟨h1, h2⟩
        refine ⟨by exact_mod_cast h1, ?_⟩
        have : ((4 * v : ℚ) : ℝ) < (((m - d) ^ 2 : ℚ) : ℝ) := by push_cast; linarith
        exact_mod_cast this
    have hclF : lowerClampedToZero m v = false := by
      simpa using hcl
    simp only [isOutlier, hclF, Bool.false_eq_true, if_false, Bool.or_eq_true, hup, hlo]

theorem mem_groupOf {rows : List DerivedRecord} {p : String} {r : DerivedRecord} :
    r ∈ groupOf rows p ↔ r ∈ rows ∧ r.person = p := by
  simp [groupOf, List.mem_filter]

theorem mem_personsOf {rows : List DerivedRecord} {p : String} :
    p ∈ personsOf rows ↔ ∃ r ∈ rows, r.person = p := by
  unfold personsOf
  rw [List.Perm.mem_iff (List.perm_insertionSort _ _), List.mem_dedup, List.mem_map]

theorem mem_outliers {rows : List DerivedRecord} {r : DerivedRecord} :
    r ∈ outliers rows ↔ r ∈ rows ∧
      isOutlier r.miles (meanMiles (groupOf rows r.person))
        (popVar (groupOf rows r.person)) = true := by
  unfold outliers detect_outliers
  rw [List.mem_flatMap]
  constructor
  · rintro ⟨p, _, hmem⟩
    rw [List.mem_filter] at hmem
    obtain ⟨hg, hout⟩ := hmem
    obtain ⟨hr, hp⟩ := mem_groupOf.mp hg
    subst hp
    exact ⟨hr, hout⟩
  · rintro ⟨hr, hout⟩
    exact ⟨r.person, mem_personsOf.mpr ⟨r, hr, rfl⟩,
      List.mem_filter.mpr ⟨mem_groupOf.mpr ⟨hr, rfl⟩, hout⟩⟩

/-- C3: outlier detection groups records per person and flags exactly the
records whose distance exceeds mean + 2·std or falls below
max(mean − 2·std, 0), where mean and std are the per-person mean and
population standard deviation (divisor N); a person with a single run is
never flagged. -/
theorem outliers_spec (rows : List DerivedRecord) (hpos : ∀ r ∈ rows, 0 ≤ r.miles) :
    (∀ r : DerivedRecord, r ∈ outliers rows ↔ r ∈ rows ∧
      ((meanMiles (groupOf rows r.person) : ℝ) +
          2 * Real.sqrt ((popVar (groupOf rows r.person) : ℚ) : ℝ) < (r.miles : ℝ) ∨
        (r.miles : ℝ) < max ((meanMiles (groupOf rows r.person) : ℝ) -
          2 * Real.sqrt ((popVar (groupOf rows r.person) : ℚ) : ℝ)) 0)) ∧
    (∀ r ∈ rows, (groupOf rows r.person).length = 1 → r ∉ outliers rows) := by
  constructor
  · intro r
    rw [mem_outliers, isOutlier_iff _ _ _ (popVar_nonneg _)]
  · intro r hr hlen hmem
    obtain ⟨a, ha⟩ := List.length_eq_one.mp hlen
    have hrg : r ∈ groupOf rows r.person := mem_groupOf.mpr ⟨hr, rfl⟩
    rw [ha, List.mem_singleton] at hrg
    subst hrg
    have hmean : meanMiles (groupOf rows r.person) = r.miles := by
      rw [ha]
      simp [meanMiles, sumMiles]
    have hvar : popVar (groupOf rows r.person) = 0 := by
      rw [ha]
      simp [popVar, meanMiles, sumMiles]
    rw [mem_outliers, hmean, hvar] at hmem
    obtain ⟨_, hout⟩ := hmem
    have h0 : 0 ≤ r.miles := hpos r hr
    rcases lt_or_eq_of_le h0 with h0 | h0
    · simp [isOutlier, gtUpper, ltLowerRaw, lowerClampedToZero, not_le.mpr h0,
        lt_irrefl, pow_two_nonneg, not_lt.mpr (pow_two_nonneg (r.miles - r.miles))] at hout
      obtain ⟨h1, -⟩ := hout
      exact absurd h1 (not_le.mpr (pow_pos h0 2))
    · rw [← h0] at hout
      simp [isOutlier, gtUpper, ltLowerRaw, lowerClampedToZero] at hout

/-- Witness for C3: a person whose only run is 5 miles is not flagged as an
outlier. -/
theorem outliers_spec_witness : soloRun ∉ outliers [soloRun] :=
  (outliers_spec [soloRun]
      (by
        intro r hr
        rw [List.mem_singleton] at hr
        subst hr
        norm_num [soloRun])).2
    soloRun (List.mem_singleton.mpr rfl) (by simp [groupOf, soloRun])

/-- C2 counterexample: for Alice with distances [3, 3, 3, 3, 20] the run of
20 is NOT flagged — it sits exactly on the upper bound mean + 2·std = 20 and
the comparison is strict. -/
theorem alice_boundary_run_not_flagged : aliceRun20 ∉ outliers aliceRows := by
  have h : outliers aliceRows = [] := by
    norm_num [outliers, personsOf, aliceRows, derive, deriveRecord,
      List.dedup_cons_of_mem, List.insertionSort, detect_outliers, groupOf,
      isOutlier, gtUpper, ltLowerRaw, lowerClampedToZero, meanMiles, popVar, sumMiles]
  simp [h]

/-- C2 amended: for Alice with distances [3, 3, 3, 3, 20], the mean is 6.4,
the population variance is 46.24 (std = 6.8), the upper bound
mean + 2·std equals the run distance 20 exactly, and under the strict >
comparison the run of 20 is not flagged. -/
theorem alice_boundary_run_amended :
    meanMiles (groupOf aliceRows "Alice") = 32 / 5 ∧
    popVar (groupOf aliceRows "Alice") = 1156 / 25 ∧
    (meanMiles (groupOf aliceRows "Alice") : ℝ) +
      2 * Real.sqrt ((popVar (groupOf aliceRows "Alice") : ℚ) : ℝ) = 20 ∧
    aliceRun20.miles = 20 ∧ aliceRun20 ∈ aliceRows ∧
    aliceRun20 ∉ outliers aliceRows := by
  have hmean : meanMiles (groupOf aliceRows "Alice") = 32 / 5 := by
    norm_num [meanMiles, groupOf, aliceRows, derive, deriveRecord, sumMiles]
  have hvar : popVar (groupOf aliceRows "Alice") = 1156 / 25 := by
    norm_num [popVar, meanMiles, groupOf, aliceRows, derive, deriveRecord, sumMiles]
  refine ⟨hmean, hvar, ?_, rfl, ?_, ?_⟩
  · rw [hmean, hvar]
    have hs : Real.sqrt (((1156 / 25 : ℚ) : ℝ)) = 34 / 5 := by
      rw [show (((1156 / 25 : ℚ) : ℝ)) = (34 / 5 : ℝ) ^ 2 by norm_num,
        Real.sqrt_sq (by norm_num : (0 : ℝ) ≤ 34 / 5)]
    rw [hs]
    norm_num
  · norm_num [aliceRows, derive, deriveRecord, aliceRun20]
  · have h : outliers aliceRows = [] := by
      norm_num [outliers, personsOf, aliceRows, derive, deriveRecord,
        List.dedup_cons_of_mem, List.insertionSort, detect_outliers, groupOf,
        isOutlier, gtUpper, ltLowerRaw, lowerClampedToZero, meanMiles, popVar, sumMiles]
    simp [h]

end RunningDash
